import Mathlib

/-!
Shallow embedding of the timebased-scheduler library:
`SPMCCircularBuffer` (include/scheduler/circular_buffer.h), the `Scheduler`
event loop (scheduler.h) and the `ThreadPool` worker loop (include/threadpool.h).

Counters are `Nat`; the preallocated slot array `T[]` is a total function from
slot index to value; blocking operations are embedded as guarded atomic steps
of a sequential trace semantics (`run`): an operation appears in a trace at
the instant it completes, so a push blocked on a full buffer and a pop blocked
on an empty buffer contribute nothing until they complete.
-/

namespace TimebasedScheduler

/-- Model of `scheduler::internal::SPMCCircularBuffer<T>`: monotone
`read_counter_` / `write_counter_`, slot array `buf_` of `max_size_` slots
addressed modulo `max_size_`. -/
structure SPMCCircularBuffer (α : Type) where
  read_counter : Nat
  write_counter : Nat
  buf : Nat → α
  max_size : Nat

namespace SPMCCircularBuffer

/-- Constructor `SPMCCircularBuffer(size_t size)`: both counters zero,
`size` default-initialized slots. -/
def mkBuffer (α : Type) [Inhabited α] (size : Nat) : SPMCCircularBuffer α :=
  ⟨0, 0, fun _ => default, size⟩

/-- Slot index written by `EmplacePush`: `write_counter_ % max_size_`. -/
def pushIndex (b : SPMCCircularBuffer α) : Nat := b.write_counter % b.max_size

/-- Slot index read by the pop operations: `read_counter_ % max_size_`. -/
def popIndex (b : SPMCCircularBuffer α) : Nat := b.read_counter % b.max_size

/-- `Empty()`: `read_counter_ == write_counter_`. -/
def Empty (b : SPMCCircularBuffer α) : Bool := b.read_counter == b.write_counter

/-- Guard of the wait in `EmplacePush` (circular_buffer.h line 82): the
producer blocks while `write_counter_ != 0 && write_counter_ - read_counter_
== max_size_`. -/
def pushBlocked (b : SPMCCircularBuffer α) : Bool :=
  b.write_counter != 0 && (b.write_counter - b.read_counter == b.max_size)

/-- Write step of `EmplacePush` (lines 88-90), performed once the full-buffer
wait (if any) has completed: `buf_[write_counter_ % max_size_] = x;
write_counter_ += 1`. -/
def EmplacePush (b : SPMCCircularBuffer α) (x : α) : SPMCCircularBuffer α :=
  { b with buf := fun j => if j = b.pushIndex then x else b.buf j,
           write_counter := b.write_counter + 1 }

/-- Value read by every consuming operation: `buf_[read_counter_ % max_size_]`. -/
def front (b : SPMCCircularBuffer α) : α := b.buf b.popIndex

/-- `read_counter_.fetch_add(1)`. -/
def advanceRead (b : SPMCCircularBuffer α) : SPMCCircularBuffer α :=
  { b with read_counter := b.read_counter + 1 }

/-- Emptiness guard of the consuming operations: `read_counter_ >= write_counter_`. -/
def popBlocked (b : SPMCCircularBuffer α) : Bool :=
  decide (b.write_counter ≤ b.read_counter)

/-- `PopUnsafe()` (lines 104-113): `std::abort()` — modelled as `none` — when
`read_counter_ >= write_counter_`; otherwise return
`buf_[read_counter_ % max_size_]` and advance `read_counter_`,
leaving `write_counter_` unchanged. -/
def PopUnsafe (b : SPMCCircularBuffer α) : Option (α × SPMCCircularBuffer α) :=
  if b.write_counter ≤ b.read_counter then none
  else some (b.front, b.advanceRead)

/-- Read path shared by `Pop()` (lines 149-162) and the success path of
`TryPopFor`: read the front slot and advance `read_counter_`. `Pop` blocks
while the buffer is empty, so in a trace it executes only when `popBlocked`
is false. -/
def Pop (b : SPMCCircularBuffer α) : α × SPMCCircularBuffer α :=
  (b.front, b.advanceRead)

/-- `TryPopFor(limit_ms)` (lines 125-139). `lockWait` is the time
`try_lock_for` needs to acquire `mutex_read_`. If the lock cannot be acquired
within `limit_ms` the call returns `none` after `limit_ms`; if the buffer is
empty once the lock is held it returns `none` immediately, after `lockWait`;
otherwise it pops the front element. The third component of the result is the
elapsed time of the call. -/
def TryPopFor (b : SPMCCircularBuffer α) (lockWait limit_ms : Nat) :
    Option α × SPMCCircularBuffer α × Nat :=
  if limit_ms < lockWait then (none, b, limit_ms)
  else if b.write_counter ≤ b.read_counter then (none, b, lockWait)
  else (some b.front, b.advanceRead, lockWait)

end SPMCCircularBuffer

/-- One completed (or, for `PopUnsafe` on an empty buffer, aborting) buffer
operation of a sequential trace. For `tryPopFor`, `ok` records whether
`try_lock_for` acquired `mutex_read_` within the limit. -/
inductive BufOp (α : Type) where
  | emplacePush : α → BufOp α
  | pop : BufOp α
  | tryPopFor : Bool → BufOp α
  | popUnsafe : BufOp α
  | empty : BufOp α

/-- Trace semantics: execute a sequence of operations; return the final
buffer, the values written by completed pushes (in push order) and the values
returned by completed pops (in completion order). A push that finds the
buffer full blocks and so does not complete inside the trace; a blocked `Pop`
and a `TryPopFor` that misses the lock or finds the buffer empty consume
nothing; `PopUnsafe` on an empty buffer aborts the process, ending the trace. -/
def run (b : SPMCCircularBuffer α) : List (BufOp α) → SPMCCircularBuffer α × List α × List α
  | [] => (b, [], [])
  | BufOp.emplacePush x :: ops =>
      if b.pushBlocked then run b ops
      else
        let r := run (b.EmplacePush x) ops
        (r.1, x :: r.2.1, r.2.2)
  | BufOp.pop :: ops =>
      if b.popBlocked then run b ops
      else
        let r := run (b.Pop).2 ops
        (r.1, r.2.1, (b.Pop).1 :: r.2.2)
  | BufOp.tryPopFor ok :: ops =>
      if ok && !b.popBlocked then
        let r := run (b.Pop).2 ops
        (r.1, r.2.1, (b.Pop).1 :: r.2.2)
      else run b ops
  | BufOp.popUnsafe :: ops =>
      match b.PopUnsafe with
      | none => (b, [], [])
      | some (v, b2) =>
          let r := run b2 ops
          (r.1, r.2.1, v :: r.2.2)
  | BufOp.empty :: ops => run b ops

/-- Ring-buffer invariant: `pending` lists the produced-but-unconsumed values
in production order; the counters differ by exactly `pending.length`, never
by more than the capacity, and slot `(read_counter + k) % max_size` holds the
k-th unconsumed value. -/
def Inv (b : SPMCCircularBuffer α) (pending : List α) : Prop :=
  b.read_counter ≤ b.write_counter ∧
  b.write_counter - b.read_counter = pending.length ∧
  pending.length ≤ b.max_size ∧
  ∀ k, (hk : k < pending.length) →
    b.buf ((b.read_counter + k) % b.max_size) = pending[k]

/-- `Scheduler::Task`: execution timestamp (`std::time_t`, modelled as `Nat`)
and an abstract callable `func` of type `F`. -/
structure Task (F : Type) where
  timestamp : Nat
  func : F

/-- Scan phase of `Scheduler::EventLoop` (scheduler.h lines 306-314): walk
the pending list head-to-tail; at scan position `i`, `system_clock::now()`
is re-read and observed as `clock i`; a task whose `timestamp` is `<=` the
observed time is handed to `pool_.AddTask` and marked for removal (removal
is deferred to after the scan). Returns the dispatched callables in
hand-over order and the tasks remaining after the deferred removal. -/
def scan {F : Type} (clock : Nat → Nat) : List (Task F) → Nat → List F × List (Task F)
  | [], _ => ([], [])
  | t :: ts, i =>
      let rest := scan clock ts (i + 1)
      if t.timestamp ≤ clock i then (t.func :: rest.1, rest.2)
      else (rest.1, t :: rest.2)

/-- State of `Scheduler::EventLoop`: stop flag `break_`, the ingress buffer
`tasks_buffer_` (FIFO queue view, justified by the buffer trace theorems:
the loop thread is its sole consumer, via `PopUnsafe`), the pending list
`tasks_`, and the sequence of callables handed to `pool_.AddTask` so far. -/
structure LoopState (F : Type) where
  brk : Bool
  ingress : List (Task F)
  tasks : List (Task F)
  dispatched : List F

/-- Loop condition of `EventLoop` (line 299):
`!break_ || !tasks_.empty() || !tasks_buffer_.Empty()`. -/
def loopCond {F : Type} (s : LoopState F) : Bool :=
  !s.brk || !s.tasks.isEmpty || !s.ingress.isEmpty

/-- Lines 300-302: if the ingress buffer is non-empty, pop exactly one task
(`PopUnsafe`) and insert it at the head of the pending list (`push_front`). -/
def drainOne {F : Type} (s : LoopState F) : LoopState F :=
  match s.ingress with
  | [] => s
  | t :: rest => { s with ingress := rest, tasks := t :: s.tasks }

/-- One iteration of the `EventLoop` body: drain at most one ingress task,
then scan the pending list, dispatching due tasks and removing them after
the scan completes. -/
def loopIter {F : Type} (clock : Nat → Nat) (s : LoopState F) : LoopState F :=
  let s1 := drainOne s
  let r := scan clock s1.tasks 0
  { s1 with tasks := r.2, dispatched := s1.dispatched ++ r.1 }

/-- The `EventLoop` itself, fuelled with one clock (the `system_clock::now()`
observations of that iteration's scan) per permitted iteration: the result is
`some` exactly when the loop condition fails and the loop exits; `none` means
the fuel ran out with the loop still running. -/
def eventLoop {F : Type} : List (Nat → Nat) → LoopState F → Option (LoopState F)
  | [], s => if loopCond s then none else some s
  | c :: cs, s => if loopCond s then eventLoop cs (loopIter c s) else some s

/-- Iterate the loop body unconditionally: this is what `eventLoop` performs
while the loop condition holds (in particular whenever the stop flag is
still clear). -/
def runIters {F : Type} : List (Nat → Nat) → LoopState F → LoopState F
  | [], s => s
  | c :: cs, s => runIters cs (loopIter c s)

/-- State of `ThreadPool::Worker` (threadpool.h lines 112-121): the pool stop
flag `break_`, the pool's task queue (FIFO view of its
`SPMCCircularBuffer<Fn>`), and the callables executed so far. -/
structure PoolState (F : Type) where
  brk : Bool
  queue : List F
  executed : List F

/-- Worker-loop condition (line 113): `!break_ || !tasks_buffer_.Empty()`. -/
def workerCond {F : Type} (p : PoolState F) : Bool :=
  !p.brk || !p.queue.isEmpty

/-- One worker iteration: `TryPopFor(500ms)` either fails to get the lock in
time (`gotLock = false`, no effect), finds the queue empty (no effect), or
pops the front callable, which the worker then invokes. -/
def workerIter {F : Type} (gotLock : Bool) (p : PoolState F) : PoolState F :=
  if gotLock then
    match p.queue with
    | [] => p
    | f :: rest => { p with queue := rest, executed := p.executed ++ [f] }
  else p

/-- The worker loop, fuelled with one lock-acquisition outcome per permitted
iteration; `some` exactly when the loop condition fails and the worker exits. -/
def workerLoop {F : Type} : List Bool → PoolState F → Option (PoolState F)
  | [], p => if workerCond p then none else some p
  | l :: ls, p => if workerCond p then workerLoop ls (workerIter l p) else some p

/-- Lifecycle state of a `Scheduler` together with its owned `ThreadPool`:
the scheduler's `break_`, whether `event_loop_thread_` is joinable, the
pool's `break_`, and the number of live entries in the pool's `threads_`
vector. -/
structure LifeState where
  brk : Bool
  loopJoinable : Bool
  poolBrk : Bool
  poolThreads : Nat

/-- State of an idle, never-run scheduler: no joinable loop thread, empty
pool thread vector (`break_` is default-initialized; its value `b0` is
indeterminate in the source). -/
def schedIdle (b0 : Bool) : LifeState := ⟨b0, false, false, 0⟩

/-- `Scheduler::Run` (scheduler.h lines 279-283) with a pool of `n` worker
threads: clear `break_`, assign a fresh thread to `event_loop_thread_` —
assigning to a joinable `std::thread` calls `std::terminate`, modelled as
`none` — then `pool_.Run()`, which clears the pool stop flag and appends
(`emplace_back`, without clearing) `n` new worker threads to `threads_`. -/
def schedRun (n : Nat) (s : LifeState) : Option LifeState :=
  if s.loopJoinable then none
  else some ⟨false, true, false, s.poolThreads + n⟩

/-- `Scheduler::Shutdown` (lines 264-270): set `break_`, join the loop thread
when it is joinable, then `pool_.Shutdown()` (threadpool.h lines 94-102: set
the pool flag, join every worker, clear the vector). The second component
counts the thread joins performed by the call. -/
def schedShutdown (s : LifeState) : LifeState × Nat :=
  (⟨true, false, true, 0⟩, (if s.loopJoinable then 1 else 0) + s.poolThreads)

/-- `Scheduler::~Scheduler() { Shutdown(); }` (lines 235-237). -/
def schedDtor (s : LifeState) : LifeState × Nat := schedShutdown s

/-- Lifecycle state of a stand-alone `ThreadPool`: its `break_` and the
number of live entries in `threads_`. -/
structure PoolLife where
  brk : Bool
  threads : Nat

/-- `ThreadPool::Shutdown` (threadpool.h lines 94-102): set `break_`, join
every thread in `threads_`, clear the vector; the second component counts
the joins performed. -/
def poolShutdownL (p : PoolLife) : PoolLife × Nat := (⟨true, 0⟩, p.threads)

/-- `ThreadPool::~ThreadPool() { Shutdown(); }` (threadpool.h lines 55-57). -/
def poolDtor (p : PoolLife) : PoolLife × Nat := poolShutdownL p

end TimebasedScheduler

namespace TimebasedScheduler

open SPMCCircularBuffer

theorem emplacePush_read (b : SPMCCircularBuffer α) (x : α) :
    (b.EmplacePush x).read_counter = b.read_counter := rfl

theorem emplacePush_write (b : SPMCCircularBuffer α) (x : α) :
    (b.EmplacePush x).write_counter = b.write_counter + 1 := rfl

theorem emplacePush_max (b : SPMCCircularBuffer α) (x : α) :
    (b.EmplacePush x).max_size = b.max_size := rfl

theorem advanceRead_read (b : SPMCCircularBuffer α) :
    b.advanceRead.read_counter = b.read_counter + 1 := rfl

theorem advanceRead_write (b : SPMCCircularBuffer α) :
    b.advanceRead.write_counter = b.write_counter := rfl

theorem advanceRead_max (b : SPMCCircularBuffer α) :
    b.advanceRead.max_size = b.max_size := rfl

theorem advanceRead_buf (b : SPMCCircularBuffer α) :
    b.advanceRead.buf = b.buf := rfl

theorem emplacePush_buf (b : SPMCCircularBuffer α) (x : α) (j : Nat) :
    (b.EmplacePush x).buf j = if j = b.pushIndex then x else b.buf j := rfl

/-- A completed push implies the buffer was not full: together with the
capacity bound this pins `pending.length < max_size`. -/
theorem not_full_of_push (b : SPMCCircularBuffer α) (pending : List α)
    (hcap : 0 < b.max_size) (hinv : Inv b pending)
    (hnb : b.pushBlocked = false) : pending.length < b.max_size := by
  obtain ⟨h1, h2, h3, _⟩ := hinv
  simp only [pushBlocked, Bool.and_eq_false_iff, bne_eq_false_iff_eq,
    beq_eq_false_iff_ne, ne_eq] at hnb
  omega

/-- Invariant preservation by the write step of `EmplacePush`. -/
theorem push_step (b : SPMCCircularBuffer α) (x : α) (pending : List α)
    (hcap : 0 < b.max_size) (hinv : Inv b pending)
    (hnb : b.pushBlocked = false) :
    Inv (b.EmplacePush x) (pending ++ [x]) := by
  have hlt : pending.length < b.max_size := not_full_of_push b pending hcap hinv hnb
  obtain ⟨h1, h2, h3, h4⟩ := hinv
  have hw : b.write_counter = b.read_counter + pending.length := by omega
  refine ⟨?_, ?_, ?_, ?_⟩
  · simp only [emplacePush_read, emplacePush_write]; omega
  · simp only [emplacePush_read, emplacePush_write, List.length_append,
      List.length_singleton]; omega
  · simp only [emplacePush_max, List.length_append, List.length_singleton]; omega
  · intro k hk
    simp only [List.length_append, List.length_singleton] at hk
    simp only [emplacePush_read, emplacePush_max, emplacePush_buf]
    rcases Nat.lt_succ_iff_lt_or_eq.mp hk with hk2 | hk2
    · have hne : (b.read_counter + k) % b.max_size ≠ b.pushIndex := by
        intro heq
        have hle : b.read_counter + k ≤ b.write_counter := by omega
        have hdvd : b.max_size ∣ b.write_counter - (b.read_counter + k) :=
          (Nat.modEq_iff_dvd' hle).mp heq
        have := Nat.eq_zero_of_dvd_of_lt hdvd (by omega)
        omega
      rw [if_neg hne, List.getElem_append_left hk2]
      exact h4 k hk2
    · subst hk2
      have heq : (b.read_counter + pending.length) % b.max_size = b.pushIndex := by
        simp only [pushIndex, hw]
      rw [if_pos heq, List.getElem_concat_length]
      rfl

/-- Invariant preservation by the shared consuming read path (`Pop`,
`TryPopFor` success path, `PopUnsafe` success path): the value returned is
the oldest unconsumed value. -/
theorem pop_step (b : SPMCCircularBuffer α) (p : α) (ps : List α)
    (hinv : Inv b (p :: ps)) :
    b.front = p ∧ Inv b.advanceRead ps := by
  obtain ⟨h1, h2, h3, h4⟩ := hinv
  constructor
  · have h0 := h4 0 (by simp)
    simpa [front, popIndex] using h0
  · refine ⟨?_, ?_, ?_, ?_⟩
    · simp only [advanceRead_read, advanceRead_write]
      simp only [List.length_cons] at h2
      omega
    · simp only [advanceRead_read, advanceRead_write]
      simp only [List.length_cons] at h2
      omega
    · simp only [advanceRead_max]
      simp only [List.length_cons] at h3
      omega
    · intro k hk
      have hsucc := h4 (k + 1) (by simpa using Nat.succ_lt_succ hk)
      simp only [List.getElem_cons_succ] at hsucc
      simp only [advanceRead_read, advanceRead_max, advanceRead_buf]
      rw [show b.read_counter + 1 + k = b.read_counter + (k + 1) by omega]
      exact hsucc

/-- Invariant preservation and accounting along a whole trace: the pops are
exactly an initial segment of pending-then-pushed values, the counters count
pops and pushes, and the ring-buffer invariant survives every operation. -/
theorem run_spec (ops : List (BufOp α)) :
    ∀ (b : SPMCCircularBuffer α) (pending : List α),
    0 < b.max_size → Inv b pending →
    ∃ pending2,
      Inv (run b ops).1 pending2 ∧
      (run b ops).1.max_size = b.max_size ∧
      (run b ops).1.read_counter = b.read_counter + (run b ops).2.2.length ∧
      (run b ops).1.write_counter = b.write_counter + (run b ops).2.1.length ∧
      (run b ops).2.2 ++ pending2 = pending ++ (run b ops).2.1 := by
  induction ops with
  | nil =>
      intro b pending hcap hinv
      exact ⟨pending, by simpa [run] using hinv, by simp [run], by simp [run],
        by simp [run], by simp [run]⟩
  | cons op ops ih =>
      intro b pending hcap hinv
      cases op with
      | emplacePush x =>
          by_cases hb : b.pushBlocked = true
          · simpa [run, hb] using ih b pending hcap hinv
          · have hnb : b.pushBlocked = false := by
              simpa using hb
            obtain ⟨p2, i2, hm, hr, hw2, heq⟩ :=
              ih (b.EmplacePush x) (pending ++ [x])
                (by simpa [emplacePush_max] using hcap)
                (push_step b x pending hcap hinv hnb)
            refine ⟨p2, ?_, ?_, ?_, ?_, ?_⟩ <;>
              simp only [run, hnb, Bool.false_eq_true, if_false] <;>
              simp only [emplacePush_max, emplacePush_read, emplacePush_write] at *
            · exact i2
            · exact hm
            · simpa using hr
            · simp only [List.length_cons]; omega
            · rw [heq]; simp
      | pop =>
          by_cases hb : b.popBlocked = true
          · simpa [run, hb] using ih b pending hcap hinv
          · have hnb : b.popBlocked = false := by simpa using hb
            have hlt : b.read_counter < b.write_counter := by
              simpa [popBlocked, Nat.not_le] using hnb
            obtain ⟨q, qs, rfl⟩ : ∃ q qs, pending = q :: qs := by
              cases pending with
              | nil =>
                  exfalso
                  obtain ⟨_, h2, _, _⟩ := hinv
                  simp only [List.length_nil] at h2
                  omega
              | cons q qs => exact ⟨q, qs, rfl⟩
            obtain ⟨hfront, hinv2⟩ := pop_step b q qs hinv
            obtain ⟨p2, i2, hm, hr, hw2, heq⟩ :=
              ih b.advanceRead qs (by simpa [advanceRead_max] using hcap) hinv2
            refine ⟨p2, ?_, ?_, ?_, ?_, ?_⟩ <;>
              simp only [run, hnb, Bool.false_eq_true, if_false, Pop] <;>
              simp only [advanceRead_max, advanceRead_read, advanceRead_write] at *
            · exact i2
            · exact hm
            · simp only [List.length_cons]; omega
            · simpa using hw2
            · simp only [List.cons_append, hfront]
              rw [heq]
      | tryPopFor ok =>
          by_cases hc : (ok && !b.popBlocked) = true
          · have hnb : b.popBlocked = false := by
              rcases Bool.and_eq_true_iff.mp hc with ⟨_, h⟩
              simpa using h
            have hlt : b.read_counter < b.write_counter := by
              simpa [popBlocked, Nat.not_le] using hnb
            obtain ⟨q, qs, rfl⟩ : ∃ q qs, pending = q :: qs := by
              cases pending with
              | nil =>
                  exfalso
                  obtain ⟨_, h2, _, _⟩ := hinv
                  simp only [List.length_nil] at h2
                  omega
              | cons q qs => exact ⟨q, qs, rfl⟩
            obtain ⟨hfront, hinv2⟩ := pop_step b q qs hinv
            obtain ⟨p2, i2, hm, hr, hw2, heq⟩ :=
              ih b.advanceRead qs (by simpa [advanceRead_max] using hcap) hinv2
            refine ⟨p2, ?_, ?_, ?_, ?_, ?_⟩ <;>
              simp only [run, hc, if_true, Pop] <;>
              simp only [advanceRead_max, advanceRead_read, advanceRead_write] at *
            · exact i2
            · exact hm
            · simp only [List.length_cons]; omega
            · simpa using hw2
            · simp only [List.cons_append, hfront]
              rw [heq]
          · have hcf : (ok && !b.popBlocked) = false := by simpa using hc
            simpa [run, hcf] using ih b pending hcap hinv
      | popUnsafe =>
          by_cases hb : b.write_counter ≤ b.read_counter
          · refine ⟨pending, ?_, ?_, ?_, ?_, ?_⟩ <;>
              simp [run, PopUnsafe, hb]
            exact hinv
          · have hlt : b.read_counter < b.write_counter := Nat.not_le.mp hb
            obtain ⟨q, qs, rfl⟩ : ∃ q qs, pending = q :: qs := by
              cases pending with
              | nil =>
                  exfalso
                  obtain ⟨_, h2, _, _⟩ := hinv
                  simp only [List.length_nil] at h2
                  omega
              | cons q qs => exact ⟨q, qs, rfl⟩
            obtain ⟨hfront, hinv2⟩ := pop_step b q qs hinv
            obtain ⟨p2, i2, hm, hr, hw2, heq⟩ :=
              ih b.advanceRead qs (by simpa [advanceRead_max] using hcap) hinv2
            refine ⟨p2, ?_, ?_, ?_, ?_, ?_⟩ <;>
              simp only [run, PopUnsafe, hb, if_false, if_neg hb] <;>
              simp only [advanceRead_max, advanceRead_read, advanceRead_write] at *
            · exact i2
            · exact hm
            · simp only [List.length_cons]; omega
            · simpa using hw2
            · simp only [List.cons_append, hfront]
              rw [heq]
      | empty =>
          simpa [run] using ih b pending hcap hinv

/-- C1: for every trace of completed operations on a single-producer buffer
of positive capacity, the sequence of values returned by the consuming
operations (`Pop`, `TryPopFor`, `PopUnsafe`), taken in completion order, is
an initial segment of the sequence of pushed values in push order:
consumption order equals production order, each pushed value is consumed at
most once, and no value that was never pushed is consumed. -/
theorem c1_fifo {α : Type} [Inhabited α] (size : Nat) (hsize : 0 < size)
    (ops : List (BufOp α)) :
    (run (mkBuffer α size) ops).2.2 =
      ((run (mkBuffer α size) ops).2.1).take ((run (mkBuffer α size) ops).2.2).length := by
  obtain ⟨p2, _, _, _, _, heq⟩ :=
    run_spec ops (mkBuffer α size) [] (by simpa [mkBuffer] using hsize)
      (by simp [Inv, mkBuffer])
  simp only [List.nil_append] at heq
  rw [← heq, List.take_left]

/-- Witness for C1 at a concrete trace: two pushes and one pop on a buffer of
capacity 2. -/
theorem c1_fifo_witness :
    (run (mkBuffer Nat 2) [BufOp.emplacePush 5, BufOp.emplacePush 6, BufOp.popUnsafe]).2.2 =
      ((run (mkBuffer Nat 2) [BufOp.emplacePush 5, BufOp.emplacePush 6, BufOp.popUnsafe]).2.1).take
        ((run (mkBuffer Nat 2) [BufOp.emplacePush 5, BufOp.emplacePush 6, BufOp.popUnsafe]).2.2).length :=
  c1_fifo 2 (by decide) [BufOp.emplacePush 5, BufOp.emplacePush 6, BufOp.popUnsafe]

/-- C2: after every trace of completed operations on a buffer of positive
capacity `size`, `0 ≤ write_counter − read_counter ≤ size` (in `Nat`:
`read_counter ≤ write_counter` and the difference is at most `size`), the
write counter counts exactly the completed pushes, and every slot holding a
produced-but-unconsumed value still holds exactly the value pushed at that
logical index: a push that would exceed the capacity blocks instead of
writing, so an unconsumed slot is never overwritten. -/
theorem c2_capacity {α : Type} [Inhabited α] (size : Nat) (hsize : 0 < size)
    (ops : List (BufOp α)) :
    (run (mkBuffer α size) ops).1.read_counter ≤ (run (mkBuffer α size) ops).1.write_counter ∧
    (run (mkBuffer α size) ops).1.write_counter - (run (mkBuffer α size) ops).1.read_counter ≤ size ∧
    (run (mkBuffer α size) ops).1.write_counter = ((run (mkBuffer α size) ops).2.1).length ∧
    ∀ j, (run (mkBuffer α size) ops).1.read_counter ≤ j →
      j < (run (mkBuffer α size) ops).1.write_counter →
      (run (mkBuffer α size) ops).1.buf (j % size) =
        ((run (mkBuffer α size) ops).2.1).getD j default := by
  obtain ⟨p2, i2, hm, hr, hw, heq⟩ :=
    run_spec ops (mkBuffer α size) [] (by simpa [mkBuffer] using hsize)
      (by simp [Inv, mkBuffer])
  simp only [List.nil_append] at heq
  rw [show (mkBuffer α size).read_counter = 0 from rfl] at hr
  rw [show (mkBuffer α size).write_counter = 0 from rfl] at hw
  rw [show (mkBuffer α size).max_size = size from rfl] at hm
  obtain ⟨j1, j2, j3, j4⟩ := i2
  refine ⟨j1, by omega, by omega, ?_⟩
  intro j hj1 hj2
  have hk : j - (run (mkBuffer α size) ops).1.read_counter < p2.length := by omega
  have hj : j = (run (mkBuffer α size) ops).1.read_counter +
      (j - (run (mkBuffer α size) ops).1.read_counter) := by omega
  have hs := j4 (j - (run (mkBuffer α size) ops).1.read_counter) hk
  rw [hm, ← hj] at hs
  have hlen : ((run (mkBuffer α size) ops).2.2).length =
      (run (mkBuffer α size) ops).1.read_counter := by omega
  have hgd : ((run (mkBuffer α size) ops).2.1).getD j default = p2.getD
      (j - (run (mkBuffer α size) ops).1.read_counter) default := by
    rw [← heq]
    rw [List.getD_eq_getElem?_getD, List.getD_eq_getElem?_getD,
      List.getElem?_append_right (by omega), hlen]
  rw [hs, hgd, List.getD_eq_getElem?_getD, List.getElem?_eq_getElem hk]
  rfl

/-- Witness for C2 at a concrete trace: push, push, pop on capacity 2. -/
theorem c2_capacity_witness :
    (run (mkBuffer Nat 2) [BufOp.emplacePush 5, BufOp.emplacePush 6, BufOp.pop]).1.read_counter ≤
      (run (mkBuffer Nat 2) [BufOp.emplacePush 5, BufOp.emplacePush 6, BufOp.pop]).1.write_counter ∧
    (run (mkBuffer Nat 2) [BufOp.emplacePush 5, BufOp.emplacePush 6, BufOp.pop]).1.write_counter -
      (run (mkBuffer Nat 2) [BufOp.emplacePush 5, BufOp.emplacePush 6, BufOp.pop]).1.read_counter ≤ 2 ∧
    (run (mkBuffer Nat 2) [BufOp.emplacePush 5, BufOp.emplacePush 6, BufOp.pop]).1.write_counter =
      ((run (mkBuffer Nat 2) [BufOp.emplacePush 5, BufOp.emplacePush 6, BufOp.pop]).2.1).length ∧
    ∀ j, (run (mkBuffer Nat 2) [BufOp.emplacePush 5, BufOp.emplacePush 6, BufOp.pop]).1.read_counter ≤ j →
      j < (run (mkBuffer Nat 2) [BufOp.emplacePush 5, BufOp.emplacePush 6, BufOp.pop]).1.write_counter →
      (run (mkBuffer Nat 2) [BufOp.emplacePush 5, BufOp.emplacePush 6, BufOp.pop]).1.buf (j % 2) =
        ((run (mkBuffer Nat 2) [BufOp.emplacePush 5, BufOp.emplacePush 6, BufOp.pop]).2.1).getD j default :=
  c2_capacity 2 (by decide) [BufOp.emplacePush 5, BufOp.emplacePush 6, BufOp.pop]

/-- C6: `PopUnsafe` on a buffer state with `read_counter ≥ write_counter`
aborts the process (modelled as `none`) and does not return a value; on a
non-empty buffer it returns the element at slot `read_counter % max_size`,
increments `read_counter` by one, and leaves `write_counter` unchanged. -/
theorem c6_popUnsafe {α : Type} (b : SPMCCircularBuffer α) :
    (b.write_counter ≤ b.read_counter → b.PopUnsafe = none) ∧
    (b.read_counter < b.write_counter →
      b.PopUnsafe = some (b.buf (b.read_counter % b.max_size),
        { b with read_counter := b.read_counter + 1 })) := by
  constructor
  · intro h
    simp [PopUnsafe, h]
  · intro h
    simp only [PopUnsafe, if_neg (Nat.not_le.mpr h)]
    rfl

/-- Witness for C6: both branches at concrete buffers — the empty buffer
aborts, the non-empty one pops slot `read_counter % max_size`. -/
theorem c6_popUnsafe_witness :
    ((⟨1, 1, fun _ => 0, 3⟩ : SPMCCircularBuffer Nat).PopUnsafe = none) ∧
    ((⟨0, 1, fun _ => 7, 3⟩ : SPMCCircularBuffer Nat).PopUnsafe =
      some ((⟨0, 1, fun _ => 7, 3⟩ : SPMCCircularBuffer Nat).buf (0 % 3),
        { (⟨0, 1, fun _ => 7, 3⟩ : SPMCCircularBuffer Nat) with read_counter := 0 + 1 })) :=
  ⟨(c6_popUnsafe ⟨1, 1, fun _ => 0, 3⟩).1 (by decide),
   (c6_popUnsafe ⟨0, 1, fun _ => 7, 3⟩).2 (by decide)⟩

/-- C7 (amended): `TryPopFor(limit_ms)` returns no value exactly when the
lock cannot be acquired within the timeout or the buffer is empty once the
lock is held; it never takes longer than the timeout; and when the lock is
acquired on a non-empty buffer it pops and returns the front element.
Contrary to the original claim, on an empty buffer it does not wait out the
timeout: the elapsed time is just the lock-acquisition time (`lockWait`),
so with an uncontended lock it returns immediately — the call waits only
for `mutex_read_`, never for data to arrive. -/
theorem c7_tryPopFor {α : Type} (b : SPMCCircularBuffer α) (lockWait limit_ms : Nat) :
    ((b.TryPopFor lockWait limit_ms).1 = none ↔
      (limit_ms < lockWait ∨ b.write_counter ≤ b.read_counter)) ∧
    (b.TryPopFor lockWait limit_ms).2.2 ≤ limit_ms ∧
    (lockWait ≤ limit_ms → b.write_counter ≤ b.read_counter →
      (b.TryPopFor lockWait limit_ms).2.2 = lockWait) ∧
    (lockWait ≤ limit_ms → b.read_counter < b.write_counter →
      (b.TryPopFor lockWait limit_ms).1 = some b.front ∧
      (b.TryPopFor lockWait limit_ms).2.1 = b.advanceRead) := by
  by_cases h1 : limit_ms < lockWait
  · refine ⟨by simp [TryPopFor, h1], by simp [TryPopFor, h1], ?_, ?_⟩
    · intro h _; omega
    · intro h _; omega
  · by_cases h2 : b.write_counter ≤ b.read_counter
    · refine ⟨by simp [TryPopFor, h1, h2], ?_, ?_, ?_⟩
      · simp only [TryPopFor, if_neg h1, if_pos h2]; omega
      · intro _ _; simp [TryPopFor, h1, h2]
      · intro _ hlt; omega
    · refine ⟨?_, ?_, ?_, ?_⟩
      · simp [TryPopFor, h1, h2]
      · simp only [TryPopFor, if_neg h1, if_neg h2]; omega
      · intro _ hle; omega
      · intro _ _; simp [TryPopFor, h1, h2]

/-- Witness for C7 (amended) at a concrete non-empty buffer with an
uncontended lock and a 200 ms budget. -/
theorem c7_tryPopFor_witness :
    (((⟨0, 1, fun _ => 7, 3⟩ : SPMCCircularBuffer Nat).TryPopFor 0 200).1 = none ↔
      (200 < 0 ∨ (⟨0, 1, fun _ => 7, 3⟩ : SPMCCircularBuffer Nat).write_counter ≤
        (⟨0, 1, fun _ => 7, 3⟩ : SPMCCircularBuffer Nat).read_counter)) ∧
    ((⟨0, 1, fun _ => 7, 3⟩ : SPMCCircularBuffer Nat).TryPopFor 0 200).2.2 ≤ 200 ∧
    (0 ≤ 200 → (⟨0, 1, fun _ => 7, 3⟩ : SPMCCircularBuffer Nat).write_counter ≤
        (⟨0, 1, fun _ => 7, 3⟩ : SPMCCircularBuffer Nat).read_counter →
      ((⟨0, 1, fun _ => 7, 3⟩ : SPMCCircularBuffer Nat).TryPopFor 0 200).2.2 = 0) ∧
    (0 ≤ 200 → (⟨0, 1, fun _ => 7, 3⟩ : SPMCCircularBuffer Nat).read_counter <
        (⟨0, 1, fun _ => 7, 3⟩ : SPMCCircularBuffer Nat).write_counter →
      ((⟨0, 1, fun _ => 7, 3⟩ : SPMCCircularBuffer Nat).TryPopFor 0 200).1 =
        some (⟨0, 1, fun _ => 7, 3⟩ : SPMCCircularBuffer Nat).front ∧
      ((⟨0, 1, fun _ => 7, 3⟩ : SPMCCircularBuffer Nat).TryPopFor 0 200).2.1 =
        (⟨0, 1, fun _ => 7, 3⟩ : SPMCCircularBuffer Nat).advanceRead) :=
  c7_tryPopFor ⟨0, 1, fun _ => 7, 3⟩ 0 200

/-- C7 counterexample: on a perpetually empty buffer whose lock is free
(`lockWait = 0`), `TryPopFor(200)` returns no value after 0 ms — immediately,
not after approximately the full 200 ms timeout as the claim states. -/
theorem c7_counterexample :
    ((mkBuffer Nat 10).TryPopFor 0 200).1 = none ∧
    ((mkBuffer Nat 10).TryPopFor 0 200).2.2 = 0 ∧ 0 < 200 :=
  ⟨rfl, rfl, by decide⟩

/-- C10: every slot access performed by the buffer operations uses index
`counter % max_size` — `front` reads slot `popIndex` and `EmplacePush`
writes slot `pushIndex` — and when the capacity is positive these indices
are strictly below `max_size`, so all accesses of the preallocated array are
in bounds; with capacity 0 the index is not in bounds (in C++, `% 0` is a
division by zero), so a positive capacity is a necessary precondition. -/
theorem c10_bounds :
    (∀ (α : Type) (b : SPMCCircularBuffer α) (x : α),
      b.front = b.buf b.popIndex ∧ (b.EmplacePush x).buf b.pushIndex = x) ∧
    (∀ (α : Type) (b : SPMCCircularBuffer α), 0 < b.max_size →
      b.pushIndex < b.max_size ∧ b.popIndex < b.max_size) ∧
    ¬ ((mkBuffer Nat 0).popIndex < (mkBuffer Nat 0).max_size) := by
  refine ⟨?_, ?_, ?_⟩
  · intro α b x
    exact ⟨rfl, by simp [emplacePush_buf]⟩
  · intro α b h
    exact ⟨Nat.mod_lt _ h, Nat.mod_lt _ h⟩
  · decide

/-- Witness for C10 at a concrete buffer of capacity 3. -/
theorem c10_bounds_witness :
    (⟨2, 5, fun _ => 0, 3⟩ : SPMCCircularBuffer Nat).pushIndex <
      (⟨2, 5, fun _ => 0, 3⟩ : SPMCCircularBuffer Nat).max_size ∧
    (⟨2, 5, fun _ => 0, 3⟩ : SPMCCircularBuffer Nat).popIndex <
      (⟨2, 5, fun _ => 0, 3⟩ : SPMCCircularBuffer Nat).max_size :=
  c10_bounds.2.1 Nat ⟨2, 5, fun _ => 0, 3⟩ (by decide)

/-- Characterization of one scan: the dispatched callables are exactly those
of the tasks whose timestamp has been reached at their observed scan instant,
in scan order, and the remaining list keeps exactly the not-yet-due tasks. -/
theorem scan_dispatch_eq {F : Type} (clock : Nat → Nat) :
    ∀ (ts : List (Task F)) (i0 : Nat),
    (scan clock ts i0).1 =
      ((List.enumFrom i0 ts).filter (fun p => decide (p.2.timestamp ≤ clock p.1))).map
        (fun p => p.2.func) ∧
    (scan clock ts i0).2 =
      ((List.enumFrom i0 ts).filter (fun p => !decide (p.2.timestamp ≤ clock p.1))).map
        (fun p => p.2)
  | [], i0 => by simp [scan]
  | t :: ts, i0 => by
      have ih := scan_dispatch_eq clock ts (i0 + 1)
      by_cases h : t.timestamp ≤ clock i0
      · constructor
        · simp [scan, h, List.enumFrom, ih.1]
        · simp [scan, h, List.enumFrom, ih.2]
      · constructor
        · simp [scan, h, List.enumFrom, ih.1]
        · simp [scan, h, List.enumFrom, ih.2]

/-- A task whose timestamp has been reached at its observed scan instant is
dispatched by that scan. -/
theorem scan_due_mem {F : Type} (clock : Nat → Nat) :
    ∀ (ts : List (Task F)) (i0 j : Nat) (hj : j < ts.length),
      (ts.get ⟨j, hj⟩).timestamp ≤ clock (i0 + j) →
      (ts.get ⟨j, hj⟩).func ∈ (scan clock ts i0).1
  | [], _, j, hj, _ => absurd hj (by simp)
  | t :: ts, i0, 0, hj, hdue => by
      have hdue2 : t.timestamp ≤ clock i0 := hdue
      show t.func ∈ (scan clock (t :: ts) i0).1
      simp only [scan, if_pos hdue2]
      exact List.mem_cons_self _ _
  | t :: ts, i0, j + 1, hj, hdue => by
      have hj2 : j < ts.length := Nat.lt_of_succ_lt_succ hj
      have hdue2 : (ts.get ⟨j, hj2⟩).timestamp ≤ clock (i0 + 1 + j) := by
        rw [show i0 + 1 + j = i0 + (j + 1) by omega]
        exact hdue
      have ih := scan_due_mem clock ts (i0 + 1) j hj2 hdue2
      show (ts.get ⟨j, hj2⟩).func ∈ (scan clock (t :: ts) i0).1
      by_cases h : t.timestamp ≤ clock i0
      · simp only [scan, if_pos h]
        exact List.mem_cons_of_mem _ ih
      · simp only [scan, if_neg h]
        exact ih

/-- C4: in one scan of the pending list, (a) the dispatched callables are
exactly those of the tasks whose due instant has been reached at the
wall-clock time observed at their scan step (comparison `≤`, so a task due
exactly now is dispatched) — so no callable is ever handed to the worker
pool at a step whose observed time is strictly before its due instant — and
(b) every task whose observed time has reached its due instant is handed
over in that scan. -/
theorem c4_due_time (F : Type) (clock : Nat → Nat) (ts : List (Task F)) :
    ((scan clock ts 0).1 =
      ((List.enumFrom 0 ts).filter (fun p => decide (p.2.timestamp ≤ clock p.1))).map
        (fun p => p.2.func)) ∧
    (∀ j, (hj : j < ts.length) → (ts.get ⟨j, hj⟩).timestamp ≤ clock j →
      (ts.get ⟨j, hj⟩).func ∈ (scan clock ts 0).1) := by
  constructor
  · exact (scan_dispatch_eq clock ts 0).1
  · intro j hj hdue
    exact scan_due_mem clock ts 0 j hj (by simpa using hdue)

/-- Witness for C4: a single task due at time 5 observed at time 10 is
dispatched by the scan. -/
theorem c4_due_time_witness :
    (([⟨5, 42⟩] : List (Task Nat)).get ⟨0, by decide⟩).func ∈
      (scan (fun _ => 10) ([⟨5, 42⟩] : List (Task Nat)) 0).1 :=
  (c4_due_time Nat (fun _ => 10) [⟨5, 42⟩]).2 0 (by decide) (by decide)

/-- A scan at an instant before every pending due time dispatches nothing
and leaves the pending list unchanged. -/
theorem scan_none_due {F : Type} (c : Nat) :
    ∀ (ts : List (Task F)) (i0 : Nat), (∀ t ∈ ts, c < t.timestamp) →
      scan (fun _ => c) ts i0 = ([], ts)
  | [], _, _ => by simp [scan]
  | t :: ts, i0, h => by
      have ht : ¬ t.timestamp ≤ c := Nat.not_le.mpr (h t (by simp))
      have ih := scan_none_due c ts (i0 + 1) (fun u hu => h u (by simp [hu]))
      simp [scan, ht, ih]

/-- A scan at an instant past every pending due time dispatches the whole
pending list in scan order and leaves it empty. -/
theorem scan_all_due {F : Type} (c : Nat) :
    ∀ (ts : List (Task F)) (i0 : Nat), (∀ t ∈ ts, t.timestamp ≤ c) →
      scan (fun _ => c) ts i0 = (ts.map Task.func, [])
  | [], _, _ => by simp [scan]
  | t :: ts, i0, h => by
      have ht : t.timestamp ≤ c := h t (by simp)
      have ih := scan_all_due c ts (i0 + 1) (fun u hu => h u (by simp [hu]))
      simp [scan, ht, ih]

/-- While no pending or incoming task is due, each loop iteration moves one
ingress task to the head of the pending list and dispatches nothing: after
`|q|` iterations the ingress queue `q` sits reversed on top of the pending
list. -/
theorem drain_phase {F : Type} (cDrain : Nat) :
    ∀ (q p : List (Task F)) (brk : Bool) (d : List F),
      (∀ t ∈ q, cDrain < t.timestamp) → (∀ t ∈ p, cDrain < t.timestamp) →
      runIters (List.replicate q.length (fun _ => cDrain)) ⟨brk, q, p, d⟩ =
        ⟨brk, [], q.reverse ++ p, d⟩
  | [], p, brk, d, _, _ => by simp [runIters]
  | t :: q, p, brk, d, hq, hp => by
      have hiter : loopIter (fun _ => cDrain) (⟨brk, t :: q, p, d⟩ : LoopState F) =
          ⟨brk, q, t :: p, d⟩ := by
        have hs : scan (fun _ => cDrain) (t :: p) 0 = ([], t :: p) :=
          scan_none_due cDrain (t :: p) 0 (by
            intro u hu
            rcases List.mem_cons.mp hu with h | h
            · rw [h]; exact hq t (by simp)
            · exact hp u h)
        simp [loopIter, drainOne, hs]
      have ih := drain_phase cDrain q (t :: p) brk d
        (fun u hu => hq u (by simp [hu]))
        (by
          intro u hu
          rcases List.mem_cons.mp hu with h | h
          · rw [h]; exact hq t (by simp)
          · exact hp u h)
      simp only [List.length_cons, List.replicate_succ, runIters, hiter, ih]
      simp

/-- Unconditional iteration splits over append of fuel lists. -/
theorem runIters_append {F : Type} :
    ∀ (cs ds : List (Nat → Nat)) (s : LoopState F),
      runIters (cs ++ ds) s = runIters ds (runIters cs s)
  | [], ds, s => by simp [runIters]
  | c :: cs, ds, s => by
      simp only [List.cons_append, runIters]
      exact runIters_append cs ds (loopIter c s)

/-- C5: if the tasks of the ingress queue `q` all become due between the
draining iterations (observed instant `cDrain`, before every due time) and
one final scan (observed instant `cDue`, past every due time), the event
loop hands them to the worker pool in reverse of their ingress order: each
iteration pops at most one task from the ingress buffer and pushes it at the
head of the pending list, the scan proceeds head-to-tail, and dispatched
tasks are removed only after the scan completes. Moreover, while the stop
flag is clear the event loop performs exactly these `loopIter` iterations. -/
theorem c5_reverse_order (F : Type) (q : List (Task F)) (cDrain cDue : Nat)
    (hdrain : ∀ t ∈ q, cDrain < t.timestamp)
    (hdue : ∀ t ∈ q, t.timestamp ≤ cDue) :
    (runIters (List.replicate q.length (fun _ => cDrain) ++ [fun _ => cDue])
        ⟨false, q, [], []⟩).dispatched = q.reverse.map Task.func ∧
    (∀ (c : Nat → Nat) (cs : List (Nat → Nat)) (s : LoopState F), s.brk = false →
      eventLoop (c :: cs) s = eventLoop cs (loopIter c s)) := by
  constructor
  · rw [runIters_append, drain_phase cDrain q [] false [] hdrain (by simp)]
    have hs : scan (fun _ => cDue) q.reverse 0 = (q.reverse.map Task.func, []) :=
      scan_all_due cDue q.reverse 0 (by
        intro u hu
        exact hdue u (List.mem_reverse.mp hu))
    simp [runIters, loopIter, drainOne, hs]
  · intro c cs s hbrk
    simp [eventLoop, loopCond, hbrk]

/-- Witness for C5: two tasks due at time 3 and 4, drained while the clock
reads 0 and all dispatched once it reads 10, come out in reverse ingress
order. -/
theorem c5_reverse_order_witness :
    (runIters (List.replicate ([⟨3, 1⟩, ⟨4, 2⟩] : List (Task Nat)).length (fun _ => 0) ++
        [fun _ => 10]) ⟨false, [⟨3, 1⟩, ⟨4, 2⟩], [], []⟩).dispatched =
      ([⟨3, 1⟩, ⟨4, 2⟩] : List (Task Nat)).reverse.map Task.func :=
  (c5_reverse_order Nat [⟨3, 1⟩, ⟨4, 2⟩] 0 10 (by decide) (by decide)).1

/-- The event loop exits (returns a final state) only in a state where the
stop flag is set, the pending list is empty and the ingress buffer is empty
— directly from its loop condition. -/
theorem eventLoop_exit {F : Type} :
    ∀ (clocks : List (Nat → Nat)) (s s2 : LoopState F),
      eventLoop clocks s = some s2 →
      s2.brk = true ∧ s2.tasks = [] ∧ s2.ingress = []
  | [], s, s2 => by
      by_cases hc : loopCond s = true
      · simp [eventLoop, hc]
      · intro h
        have hs : s = s2 := by
          simpa [eventLoop, hc] using h
        subst hs
        have hc2 : loopCond s = false := by simpa using hc
        simp only [loopCond, Bool.or_eq_false_iff, Bool.not_eq_false',
          List.isEmpty_iff] at hc2
        exact ⟨hc2.1.1, hc2.1.2, hc2.2⟩
  | c :: cs, s, s2 => by
      by_cases hc : loopCond s = true
      · intro h
        have h2 : eventLoop cs (loopIter c s) = some s2 := by
          simpa [eventLoop, hc] using h
        exact eventLoop_exit cs (loopIter c s) s2 h2
      · intro h
        have hs : s = s2 := by
          simpa [eventLoop, hc] using h
        subst hs
        have hc2 : loopCond s = false := by simpa using hc
        simp only [loopCond, Bool.or_eq_false_iff, Bool.not_eq_false',
          List.isEmpty_iff] at hc2
        exact ⟨hc2.1.1, hc2.1.2, hc2.2⟩

/-- The pool worker loop exits only in a state where the pool stop flag is
set and the pool queue is empty — directly from its loop condition. -/
theorem workerLoop_exit {F : Type} :
    ∀ (locks : List Bool) (p p2 : PoolState F),
      workerLoop locks p = some p2 → p2.brk = true ∧ p2.queue = []
  | [], p, p2 => by
      by_cases hc : workerCond p = true
      · simp [workerLoop, hc]
      · intro h
        have hp : p = p2 := by
          simpa [workerLoop, hc] using h
        subst hp
        have hc2 : workerCond p = false := by simpa using hc
        simp only [workerCond, Bool.or_eq_false_iff, Bool.not_eq_false',
          List.isEmpty_iff] at hc2
        exact ⟨hc2.1, hc2.2⟩
  | l :: ls, p, p2 => by
      by_cases hc : workerCond p = true
      · intro h
        have h2 : workerLoop ls (workerIter l p) = some p2 := by
          simpa [workerLoop, hc] using h
        exact workerLoop_exit ls (workerIter l p) p2 h2
      · intro h
        have hp : p = p2 := by
          simpa [workerLoop, hc] using h
        subst hp
        have hc2 : workerCond p = false := by simpa using hc
        simp only [workerCond, Bool.or_eq_false_iff, Bool.not_eq_false',
          List.isEmpty_iff] at hc2
        exact ⟨hc2.1, hc2.2⟩

/-- C3: the scheduler event loop exits only when the stop flag is set AND
the pending list is empty AND the ingress buffer is empty, and the pool
worker loop exits only when the pool stop flag is set AND the pool queue is
empty; `Shutdown` joins these loops in turn, so it cannot complete while a
submitted-but-unforwarded task (ingress or pending) or a
forwarded-but-unexecuted task (pool queue) remains. -/
theorem c3_shutdown_drains (F : Type) :
    (∀ (clocks : List (Nat → Nat)) (s s2 : LoopState F),
      eventLoop clocks s = some s2 →
      s2.brk = true ∧ s2.tasks = [] ∧ s2.ingress = []) ∧
    (∀ (locks : List Bool) (p p2 : PoolState F),
      workerLoop locks p = some p2 → p2.brk = true ∧ p2.queue = []) :=
  ⟨fun clocks s s2 h => eventLoop_exit clocks s s2 h,
   fun locks p p2 h => workerLoop_exit locks p p2 h⟩

/-- Witness for C3: a stopped, fully drained loop state and worker state are
accepted as exit states. -/
theorem c3_shutdown_drains_witness :
    ((⟨true, [], [], []⟩ : LoopState Nat).brk = true ∧
      (⟨true, [], [], []⟩ : LoopState Nat).tasks = [] ∧
      (⟨true, [], [], []⟩ : LoopState Nat).ingress = []) ∧
    ((⟨true, [], []⟩ : PoolState Nat).brk = true ∧
      (⟨true, [], []⟩ : PoolState Nat).queue = []) :=
  ⟨(c3_shutdown_drains Nat).1 [] ⟨true, [], [], []⟩ ⟨true, [], [], []⟩ rfl,
   (c3_shutdown_drains Nat).2 [] ⟨true, [], []⟩ ⟨true, [], []⟩ rfl⟩

/-- C8 counterexample: `Run` is not idempotent. From a fresh scheduler, the
first `Run` succeeds; a second `Run` without an intervening `Shutdown`
assigns to the joinable `event_loop_thread_`, which calls `std::terminate`
(modelled as `none`) — a crash, contradicting the claim that a second `Run`
is harmless. -/
theorem c8_counterexample :
    schedRun 4 (schedIdle false) = some ⟨false, true, false, 4⟩ ∧
    schedRun 4 ⟨false, true, false, 4⟩ = none :=
  ⟨rfl, rfl⟩

/-- C8 (amended): `Shutdown` is idempotent — a second `Shutdown` reproduces
the same state and joins no thread — and a `Shutdown`/`Run` cycle restores
behavior identical to a fresh instance; but `Run` is NOT idempotent: any
second `Run` without an intervening `Shutdown` terminates the process
(assignment to a joinable `std::thread`), after having already duplicated
the pool's worker threads had it proceeded. -/
theorem c8_lifecycle (n : Nat) (b : Bool) (s s1 : LifeState) :
    (schedShutdown (schedShutdown s).1).1 = (schedShutdown s).1 ∧
    (schedShutdown (schedShutdown s).1).2 = 0 ∧
    schedRun n (schedShutdown s).1 = schedRun n (schedIdle b) ∧
    (schedRun n s = some s1 → schedRun n s1 = none) := by
  refine ⟨rfl, rfl, rfl, ?_⟩
  intro h
  have hs1 : s1 = ⟨false, true, false, s.poolThreads + n⟩ := by
    by_cases hj : s.loopJoinable = true
    · exfalso
      simp [schedRun, hj] at h
    · have hj2 : s.loopJoinable = false := by simpa using hj
      simpa [schedRun, hj2] using h.symm
  rw [hs1]
  rfl

/-- Witness for C8 (amended) at a concrete running state. -/
theorem c8_lifecycle_witness :
    (schedShutdown (schedShutdown (schedIdle false)).1).1 = (schedShutdown (schedIdle false)).1 ∧
    (schedShutdown (schedShutdown (schedIdle false)).1).2 = 0 ∧
    schedRun 4 (schedShutdown (schedIdle false)).1 = schedRun 4 (schedIdle true) ∧
    (schedRun 4 (schedIdle false) = some ⟨false, true, false, 4⟩ →
      schedRun 4 (⟨false, true, false, 4⟩ : LifeState) = none) :=
  c8_lifecycle 4 true (schedIdle false) ⟨false, true, false, 4⟩

/-- C9: the destructors invoke `Shutdown`: destroying an idle (never-run or
already-shut-down) scheduler or pool joins no thread, while destroying a
running scheduler joins the loop thread and every pool worker thread — and
joining the event loop is possible only once it has exited, which (by the
exit characterization of `eventLoop`) happens only with the pending list and
ingress buffer drained. -/
theorem c9_destructor (s : LifeState) (p : PoolLife) :
    schedDtor s = schedShutdown s ∧
    poolDtor p = poolShutdownL p ∧
    (s.loopJoinable = false → s.poolThreads = 0 → (schedDtor s).2 = 0) ∧
    (s.loopJoinable = true → (schedDtor s).2 = 1 + s.poolThreads) ∧
    (poolDtor p).2 = p.threads ∧
    (∀ (clocks : List (Nat → Nat)) (ls ls2 : LoopState Nat),
      eventLoop clocks ls = some ls2 → ls2.tasks = [] ∧ ls2.ingress = []) := by
  refine ⟨rfl, rfl, ?_, ?_, rfl, ?_⟩
  · intro h1 h2
    simp [schedDtor, schedShutdown, h1, h2]
  · intro h1
    simp [schedDtor, schedShutdown, h1]
  · intro clocks ls ls2 h
    exact ⟨(eventLoop_exit clocks ls ls2 h).2.1, (eventLoop_exit clocks ls ls2 h).2.2⟩

/-- Witness for C9 at a concrete running scheduler and a concrete pool. -/
theorem c9_destructor_witness :
    (schedDtor ⟨false, true, false, 4⟩).2 = 1 + (⟨false, true, false, 4⟩ : LifeState).poolThreads ∧
    (schedDtor (schedIdle false)).2 = 0 :=
  ⟨(c9_destructor ⟨false, true, false, 4⟩ ⟨false, 0⟩).2.2.2.1 rfl,
   (c9_destructor (schedIdle false) ⟨false, 0⟩).2.2.1 rfl rfl⟩
